import Mathlib

/-!
Verification development for the FunctionalGroupAnalyzer repository.

The repository is a React frontend (`src/App.js`, `src/services/api.js`,
`src/components/MoleculeInput.js`, `src/components/FunctionalGroupResults.js`)
talking to a Flask/RDKit backend (`backend/app.py`, `backend/FunctionalCatalog.py`)
whose sources are not part of the checked tree.  The frontend components are
embedded directly from the JavaScript; the matching and overlap-resolution
engine is modelled from the specification (every such definition carries a
doc comment starting with `Modelled from the spec:`).

JavaScript conventions embedded here:
* a missing object field is `Option.none`;
* `x || d` on strings is `jsOrString` (the empty string is falsy);
* `str.trim()` is `jsTrim` (strip leading/trailing whitespace);
* an exception escaping a function is the `Except.error` branch.
-/

/-- Modelled from the spec: one atom of a `Molecule` — element symbol and
aromaticity flag (§3); the index of an atom is its position in the list. -/
structure Atom where
  element : String
  aromatic : Bool
deriving DecidableEq

/-- Modelled from the spec: one bond of a `Molecule` — pair of atom indices,
bond order and aromatic flag (§3). -/
structure Bond where
  first : ℕ
  second : ℕ
  order : ℕ
  aromatic : Bool
deriving DecidableEq

/-- Modelled from the spec: an immutable molecular graph (§3).  The engine
never inspects it directly; the external matching primitive does. -/
structure Molecule where
  atoms : List Atom
  bonds : List Bond
deriving DecidableEq

/-- Modelled from the spec: one catalog entry of the pattern library (§3),
as stored by `PatternCatalog` in `backend/FunctionalCatalog.py` (missing from
the checked tree): unique name, primary pattern string, optional simplified
fallback, category and subcategory labels, reactivity text, examples, common
reactions, optional external cross reference, and a specificity rank. -/
structure PatternDefinition where
  name : String
  smarts : String
  simplified : Option String
  categories : List String
  subcategories : List String
  reactivity : String
  examples : List String
  common_reactions : List String
  chebi_id : Option String
  chebi_description : Option String
  rank : ℕ
deriving DecidableEq

/-- Modelled from the spec: one occurrence of one pattern in the molecule
(§3).  `atoms` is the atom-index set obtained from a matched tuple by
discarding order; `patternIdx` is the catalog declaration position of the
pattern and `matchIdx` the position of this occurrence in the pattern's own
(deduplicated) match list — together they identify the occurrence and encode
the deterministic tie-breaks of §4.3. -/
structure RawMatch where
  pname : String
  patternIdx : ℕ
  matchIdx : ℕ
  rank : ℕ
  atoms : Finset ℕ
deriving DecidableEq

/-- Identifying pair of a raw match: catalog position and occurrence
position within that pattern. -/
def pairOf (m : RawMatch) : ℕ × ℕ :=
  (m.patternIdx, m.matchIdx)

/-- Modelled from the spec: the priority key of §4.3 step 1 — specificity
rank descending, atom-set size descending, catalog declaration order
ascending — extended by the occurrence position so that sorting the merged
worker output by this key is exactly a stable sort by the spec's key of the
per-pattern match lists. -/
def priorityKey (m : RawMatch) : ℤ ×ₗ (ℤ ×ₗ (ℕ ×ₗ ℕ)) :=
  toLex (-(m.rank : ℤ), toLex (-(m.atoms.card : ℤ), toLex (m.patternIdx, m.matchIdx)))

/-- Priority order on raw matches: `a` is admitted before `b`. -/
def PriorityLe (a b : RawMatch) : Prop :=
  priorityKey a ≤ priorityKey b

instance : DecidableRel PriorityLe := fun a b =>
  inferInstanceAs (Decidable (priorityKey a ≤ priorityKey b))

instance : IsTotal RawMatch PriorityLe :=
  ⟨fun a b => le_total (priorityKey a) (priorityKey b)⟩

instance : IsTrans RawMatch PriorityLe :=
  ⟨fun _ _ _ hab hbc => le_trans hab hbc⟩

/-- Modelled from the spec: the conflict predicate of §4.3 between two raw
matches.  Two matches conflict when their atom-index sets intersect; the
spec's nesting paragraph then decides which side of a conflict survives (the
higher-ranked, more specific match, admitted first by the priority order),
and states that "a generic group never survives alongside a specific group
whose atoms it fully contains" and that any partial overlap "is always a
conflict and only one side survives", so intersecting matches never both
survive. -/
def conflict (a b : RawMatch) : Prop :=
  (a.atoms ∩ b.atoms).Nonempty

instance : DecidableRel conflict := fun a b =>
  inferInstanceAs (Decidable (a.atoms ∩ b.atoms).Nonempty)

/-- Modelled from the spec: §4.3 step 3, the greedy admission walk — admit a
raw match unless it conflicts with an already admitted one.  `acc` holds the
already admitted matches most-recent-first. -/
def greedyAdmit (acc : List RawMatch) : List RawMatch → List RawMatch
  | [] => acc.reverse
  | m :: rest =>
      if ∃ a ∈ acc, conflict a m then greedyAdmit acc rest
      else greedyAdmit (m :: acc) rest

/-- Modelled from the spec: the output presentation key of §4.3 step 4 —
lowest atom index ascending, then catalog declaration order. -/
def outputKey (m : RawMatch) : WithTop ℕ ×ₗ ℕ :=
  toLex (m.atoms.min, m.patternIdx)

/-- Output presentation order on resolved matches. -/
def OutputLe (a b : RawMatch) : Prop :=
  outputKey a ≤ outputKey b

instance : DecidableRel OutputLe := fun a b =>
  inferInstanceAs (Decidable (outputKey a ≤ outputKey b))

instance : IsTotal RawMatch OutputLe :=
  ⟨fun a b => le_total (outputKey a) (outputKey b)⟩

instance : IsTrans RawMatch OutputLe :=
  ⟨fun _ _ _ hab hbc => le_trans hab hbc⟩

/-- Modelled from the spec: the whole `OverlapResolver` (§4.3) — sort the raw
matches by the priority key, admit greedily, present in output order. -/
def overlapResolve (raw : List RawMatch) : List RawMatch :=
  List.insertionSort OutputLe (greedyAdmit [] (List.insertionSort PriorityLe raw))

/-- Ordered group-name list of the resolved set — the `matches` sequence of
the Report. -/
def resolvedNames (raw : List RawMatch) : List String :=
  (overlapResolve raw).map RawMatch.pname

/-- Modelled from the spec: the worker outputs of one analysis request are
per-pattern lists of raw matches, merged by concatenation in completion
order (§5); the resolver then runs on the merged list. -/
def analyzeNamesFromBlocks (blocks : List (List RawMatch)) : List String :=
  resolvedNames blocks.flatten

/-- Modelled from the spec: outcome of one invocation of the external
matching primitive `SubstructureSearch` (§6) — a sequence of atom-index
tuples, a pattern-syntax failure, or a timeout. -/
inductive EvalOutcome where
  | ok : List (List ℕ) → EvalOutcome
  | syntaxError : EvalOutcome
  | timeout : EvalOutcome
deriving DecidableEq

/-- Modelled from the spec: §4.2 — evaluate one pattern: try the primary
string; on a syntax failure retry with the simplified fallback when present;
a timeout, or failure of both strings, skips the pattern (`none`). -/
def evalPattern (prim : String → EvalOutcome) (p : PatternDefinition) :
    Option (List (List ℕ)) :=
  match prim p.smarts with
  | .ok ts => some ts
  | .timeout => none
  | .syntaxError =>
      match p.simplified with
      | none => none
      | some s =>
          match prim s with
          | .ok ts => some ts
          | _ => none

/-- Modelled from the spec: §4.2 — each tuple is converted to an atom-index
set by discarding order and deduplicating indices, and tuples of the same
pattern that resolve to the same set are deduplicated to one raw match. -/
def tuplesToSets (ts : List (List ℕ)) : List (Finset ℕ) :=
  (ts.map List.toFinset).dedup

/-- Decorate the deduplicated atom sets of one pattern with the pattern's
name, catalog position, rank, and the occurrence position (from `j` up). -/
def decorate (n : String) (i rank : ℕ) : ℕ → List (Finset ℕ) → List RawMatch
  | _, [] => []
  | j, s :: rest => ⟨n, i, j, rank, s⟩ :: decorate n i rank (j + 1) rest

/-- Modelled from the spec: the raw matches one worker produces for the
catalog pattern at declaration position `i` (§4.2, §5). -/
def collectPattern (prim : String → EvalOutcome) (i : ℕ) (p : PatternDefinition) :
    List RawMatch :=
  match evalPattern prim p with
  | none => []
  | some ts => decorate p.name i p.rank 0 (tuplesToSets ts)

/-- Per-pattern worker outputs for the catalog tail starting at declaration
position `i`. -/
def collectBlocksFrom (prim : String → EvalOutcome) : ℕ → List PatternDefinition →
    List (List RawMatch)
  | _, [] => []
  | i, p :: ps => collectPattern prim i p :: collectBlocksFrom prim (i + 1) ps

/-- Modelled from the spec: `MatchCollector` (§4.2) — one block of raw
matches per catalog pattern, in catalog order. -/
def collectBlocks (prim : String → EvalOutcome) (catalog : List PatternDefinition) :
    List (List RawMatch) :=
  collectBlocksFrom prim 0 catalog

/-- Modelled from the spec: the Report (§3) — ordered sequence of resolved
group names, mapping from group name to catalog metadata, combined
highlighted-structure image, and mapping from group name to its individual
highlighted-structure image. -/
structure Report where
  «matches» : List String
  groups_data : List (String × PatternDefinition)
  image : Option String
  individual_images : List (String × String)
deriving DecidableEq

/-- Request-level failure of an analysis (§7): only a molecule-parse
failure. -/
inductive AnalysisError where
  | parseError : AnalysisError
deriving DecidableEq

/-- Modelled from the spec: `ResultAssembler` (§4.4) — join the resolved
names with catalog metadata and with the images delivered by the external
rendering collaborator; a failed rendering (`none`) is omitted. -/
def assembleReport (catalog : List PatternDefinition) (names : List String)
    (renderCombined : Option String) (renderInd : String → Option String) : Report :=
  { «matches» := names
    groups_data := names.filterMap fun n =>
      (catalog.find? fun p => p.name = n).map fun p => (n, p)
    image := renderCombined
    individual_images := names.filterMap fun n => (renderInd n).map fun img => (n, img) }

/-- Modelled from the spec: `AnalyzeFunctionalGroups` (§6) — the primary
entry point.  `parseResult` is the outcome of the upstream
`ParseMolecule` collaborator, `prim mol` the per-request substructure-search
primitive, `renderCombined`/`renderInd` the rendering collaborator's
outcomes.  Only a parse failure is a request-level error (§7). -/
def analyzeFunctionalGroups (catalog : List PatternDefinition)
    (parseResult : Option Molecule) (prim : Molecule → String → EvalOutcome)
    (renderCombined : Option String) (renderInd : String → Option String) :
    Except AnalysisError Report :=
  match parseResult with
  | none => .error .parseError
  | some mol =>
      .ok (assembleReport catalog
        (analyzeNamesFromBlocks (collectBlocks (prim mol) catalog))
        renderCombined renderInd)

/-- JavaScript `x || d` for an optional string field: `undefined` and the
empty string are falsy and fall back to the default. -/
def jsOrString (o : Option String) (d : String) : String :=
  match o with
  | none => d
  | some s => if s = "" then d else s

/-- JavaScript truthiness guard for an optional string (used by
`{image && ...}` and `{individualImage && ...}` in
`FunctionalGroupResults.js`): a missing or empty string renders nothing. -/
def jsTruthyStr (o : Option String) : Option String :=
  match o with
  | none => none
  | some s => if s = "" then none else some s

/-- JavaScript object-key lookup in an association list (first binding
wins), as `groups_data[groupName]` and `individual_images[groupName]`. -/
def jsLookup {β : Type} (assoc : List (String × β)) (k : String) : Option β :=
  (assoc.find? fun kv => kv.1 = k).map Prod.snd

/-- One functional-group entry of the `groups_data` object received by
`FunctionalGroupResults.js`; every field except `name` may be absent. -/
structure JsGroup where
  name : String
  description : Option String
  categories : Option (List String)
  subcategories : Option (List String)
  reactivity : Option String
  chebi_id : Option String
  chebi_description : Option String
  examples : Option (List String)
  common_reactions : Option (List String)
  smarts : Option String
  simplified : Option String
deriving DecidableEq

/-- The fallback object `{ name: groupName }` built at
`FunctionalGroupResults.js:316` when a matched name is absent from
`groups_data`. -/
def fallbackGroup (n : String) : JsGroup :=
  { name := n, description := none, categories := none, subcategories := none,
    reactivity := none, chebi_id := none, chebi_description := none,
    examples := none, common_reactions := none, smarts := none, simplified := none }

/-- The analysis result object received by `FunctionalGroupResults.js`;
each field may be absent. -/
structure JsResult where
  «matches» : Option (List String)
  groups_data : Option (List (String × JsGroup))
  image : Option String
  individual_images : Option (List (String × String))
deriving DecidableEq

/-- What one `FunctionalGroupCard` renders (`FunctionalGroupResults.js:163`):
the title, the optional individual image, and the always-rendered textual
fields with their JavaScript fallbacks. -/
structure CardView where
  title : String
  image : Option String
  description : String
  categories : List String
  subcategories : List String
  reactivity : String
  chebiLink : Option String
deriving DecidableEq

/-- Embedding of `FunctionalGroupCard({ group, individualImage })`
(`FunctionalGroupResults.js:163`): the image block is rendered only for a
truthy `individualImage`; description falls back to
`No description available`, reactivity to `Unknown`; category lists render
when present and non-empty; the ChEBI link renders for a truthy id other
than `Not available`. -/
def functionalGroupCard (group : JsGroup) (individualImage : Option String) : CardView :=
  { title := group.name
    image := jsTruthyStr individualImage
    description := jsOrString group.description "No description available"
    categories := (group.categories.getD []).filter fun _ => true
    subcategories := (group.subcategories.getD []).filter fun _ => true
    reactivity := jsOrString group.reactivity "Unknown"
    chebiLink :=
      match jsTruthyStr group.chebi_id with
      | none => none
      | some id => if id = "Not available" then none else some id }

/-- Summary line of the results view (`FunctionalGroupResults.js:292`). -/
def summaryText (n : ℕ) : String :=
  "Found " ++ toString n ++ " functional group" ++
    (if n ≠ 1 then "s" else "") ++
    (if 0 < n then ":" else " in this molecule.")

/-- The results view (`FunctionalGroupResults.js:288`): summary line, the
combined image when truthy, and the group cards (empty when the grid is not
rendered). -/
structure ResultsView where
  summary : String
  image : Option String
  cards : List CardView
deriving DecidableEq

/-- What `FunctionalGroupResults` renders: the `No analysis results
available.` fallback or the results view. -/
inductive RenderOutput where
  | noResults : RenderOutput
  | view : ResultsView → RenderOutput
deriving DecidableEq

/-- A thrown JavaScript runtime error while rendering. -/
inductive RenderError where
  | typeError : RenderError
deriving DecidableEq

/-- Embedding of `FunctionalGroupResults({ result })`
(`FunctionalGroupResults.js:277`).  A null result or a falsy `matches`
field renders the fallback.  Otherwise the summary and (truthy) combined
image render, and when `matches` is non-empty the card grid is built by
`groups_data[groupName] || { name: groupName }` — which throws a
`TypeError` when the `groups_data` field itself is absent — with the
individual image looked up under the `individual_images && ...` guard. -/
def functionalGroupResults (result : Option JsResult) :
    Except RenderError RenderOutput :=
  match result with
  | none => .ok .noResults
  | some r =>
      match r.«matches» with
      | none => .ok .noResults
      | some ms =>
          if ms.isEmpty then
            .ok (.view { summary := summaryText ms.length,
                         image := jsTruthyStr r.image, cards := [] })
          else
            match r.groups_data with
            | none => .error .typeError
            | some gd =>
                .ok (.view { summary := summaryText ms.length,
                             image := jsTruthyStr r.image,
                             cards := ms.map fun n =>
                               functionalGroupCard ((jsLookup gd n).getD (fallbackGroup n))
                                 (match r.individual_images with
                                  | none => none
                                  | some ii => jsLookup ii n) })

/-- The three-valued input format of `MoleculeInput.js`: the exact values of
the `<select>` options `smiles`, `smarts` and `mol_file`. -/
inductive InputType where
  | smiles : InputType
  | smarts : InputType
  | mol_file : InputType
deriving DecidableEq

/-- The option strings offered by the input-type `<select>` of
`MoleculeInput.js`. -/
def selectOptions : List String :=
  ["smiles", "smarts", "mol_file"]

/-- Mapping from a `<select>` option value to the input format; only the
three offered option strings denote a format. -/
def parseInputTypeOption (s : String) : Option InputType :=
  if s = "smiles" then some .smiles
  else if s = "smarts" then some .smarts
  else if s = "mol_file" then some .mol_file
  else none

/-- Modelled from the spec: `ParseMolecule(inputText, format) → Molecule`
(§6) — the backend molecule parser is not under the checked tree; the
`wellFormed` oracle gives its outcome, and a malformed input fails with a
`ParseError`. -/
def parseMolecule (wellFormed : String → InputType → Option Molecule)
    (txt : String) (fmt : InputType) : Except AnalysisError Molecule :=
  match wellFormed txt fmt with
  | none => .error .parseError
  | some m => .ok m

/-- JavaScript whitespace recognised by `String.prototype.trim`. -/
def jsIsWhitespace (c : Char) : Bool :=
  c = ' ' ∨ c = '\t' ∨ c = '\n' ∨ c = '\r' ∨ c = '\x0b' ∨ c = '\x0c'

/-- Embedding of JavaScript `str.trim()`: strip leading and trailing
whitespace. -/
def jsTrim (s : String) : String :=
  ⟨((s.data.dropWhile jsIsWhitespace).reverse.dropWhile jsIsWhitespace).reverse⟩

/-- The payload `{ input, type }` passed to `onAnalyze` by
`MoleculeInput.js:117`. -/
structure AnalyzePayload where
  input : String
  type : InputType
deriving DecidableEq

/-- Embedding of `handleAnalyze` (`MoleculeInput.js:110`): a blank (trimmed
to empty, hence falsy) input is rejected without calling `onAnalyze`;
otherwise `onAnalyze` receives the trimmed input and the current type. -/
def handleAnalyze (inputValue : String) (inputType : InputType) :
    Option AnalyzePayload :=
  if jsTrim inputValue = "" then none
  else some { input := jsTrim inputValue, type := inputType }

/-- Embedding of the `disabled={!inputValue.trim()}` attribute of the
analyze button (`MoleculeInput.js:208`). -/
def analyzeButtonDisabled (inputValue : String) : Bool :=
  jsTrim inputValue = ""

/-- Body of a JSON response of the `/api/analyze` endpoint as far as
`api.js` inspects it: the optional `error` field, plus an abstract payload
standing for the rest of the document. -/
structure ServerBody where
  errorField : Option String
  payload : String
deriving DecidableEq

/-- Decidable equality of `Except` results, by cases on both sides. -/
instance {α β : Type} [DecidableEq α] [DecidableEq β] : DecidableEq (Except α β) :=
  fun a b =>
    match a, b with
    | .ok x, .ok y => if h : x = y then .isTrue (by rw [h]) else .isFalse (by simp [h])
    | .error x, .error y => if h : x = y then .isTrue (by rw [h]) else .isFalse (by simp [h])
    | .ok _, .error _ => .isFalse (by simp)
    | .error _, .ok _ => .isFalse (by simp)

/-- A settled `fetch` response as far as `api.js` inspects it: the `ok`
flag and the outcome of `response.json()` (which may itself throw). -/
structure ServerResponse where
  ok : Bool
  jsonResult : Except String ServerBody
deriving DecidableEq

/-- Embedding of `analyzeMolecule` (`src/services/api.js:7`): inside the
`try` block a failed fetch rethrows, a non-ok response throws
`errorData.error || 'Failed to analyze molecule'` after parsing the body
(whose own failure also throws), and an ok response returns its parsed
body; the surrounding `catch` replaces every thrown error with
`Failed to analyze molecule. Please try again.`. -/
def analyzeMolecule (fetchResult : Except String ServerResponse) :
    Except String ServerBody :=
  let inner : Except String ServerBody :=
    match fetchResult with
    | .error e => .error e
    | .ok resp =>
        match resp.jsonResult with
        | .error e => .error e
        | .ok body =>
            if resp.ok then .ok body
            else .error (jsOrString body.errorField "Failed to analyze molecule")
  match inner with
  | .ok body => .ok body
  | .error _ => .error "Failed to analyze molecule. Please try again."

/-- Fixture: a generic carbonyl catalog entry (low specificity rank). -/
def wCarbonyl : PatternDefinition :=
  { name := "Carbonyl", smarts := "C=O", simplified := none,
    categories := ["Carbonyl Compounds"], subcategories := [],
    reactivity := "electrophilic carbon", examples := ["CC=O"],
    common_reactions := ["nucleophilic addition"],
    chebi_id := none, chebi_description := none, rank := 1 }

/-- Fixture: a carboxylic-acid catalog entry (high specificity rank). -/
def wAcid : PatternDefinition :=
  { name := "Carboxylic Acid", smarts := "C(=O)O", simplified := none,
    categories := ["Acids"], subcategories := ["Carboxylic Acids"],
    reactivity := "acidic proton", examples := ["CC(=O)O"],
    common_reactions := ["esterification"],
    chebi_id := some "http://purl.obolibrary.org/obo/CHEBI_33575",
    chebi_description := none, rank := 5 }

/-- Fixture: a two-entry catalog snapshot. -/
def wCatalog : List PatternDefinition :=
  [wCarbonyl, wAcid]

/-- Fixture: an acetic-acid-like molecule (atom 0 the methyl carbon, atom 1
the carbonyl carbon, atom 2 the carbonyl oxygen, atom 3 the hydroxyl
oxygen). -/
def wMol : Molecule :=
  { atoms := [⟨"C", false⟩, ⟨"C", false⟩, ⟨"O", false⟩, ⟨"O", false⟩],
    bonds := [⟨0, 1, 1, false⟩, ⟨1, 2, 2, false⟩, ⟨1, 3, 1, false⟩] }

/-- Fixture: substructure-search outcomes on the acetic-acid-like molecule —
the carbonyl pattern matches the 2-atom set of atoms 1 and 2, the
carboxylic-acid pattern the containing 4-atom set of atoms 0 to 3. -/
def wPrim : Molecule → String → EvalOutcome := fun _ s =>
  if s = "C=O" then .ok [[1, 2]]
  else if s = "C(=O)O" then .ok [[0, 1, 2, 3]]
  else .ok []

/-- Fixture: the carbonyl raw match of the acetic-acid-like molecule. -/
def wCarbonylMatch : RawMatch :=
  ⟨"Carbonyl", 0, 0, 1, {1, 2}⟩

/-- Fixture: the carboxylic-acid raw match of the acetic-acid-like
molecule. -/
def wAcidMatch : RawMatch :=
  ⟨"Carboxylic Acid", 1, 0, 5, {0, 1, 2, 3}⟩

/-- Fixture: the per-pattern worker blocks merged in reversed completion
order (the acid worker finished first). -/
def wBlocksReversed : List (List RawMatch) :=
  [[wAcidMatch], [wCarbonylMatch]]

/-- Fixture: individual-image render outcomes — only the carboxylic-acid
image succeeds. -/
def wRenderInd : String → Option String := fun n =>
  if n = "Carboxylic Acid" then some "acidimg" else none

/-- Two sorted lists that are permutations of each other coincide, given
antisymmetry of the order on the elements actually present. -/
theorem sorted_perm_eq_of_antisymm {α : Type} {r : α → α → Prop}
    {l₁ l₂ : List α} (hp : l₁.Perm l₂) (hs₁ : l₁.Sorted r) (hs₂ : l₂.Sorted r)
    (hanti : ∀ a ∈ l₁, ∀ b ∈ l₁, r a b → r b a → a = b) : l₁ = l₂ := by
  induction l₁ generalizing l₂ with
  | nil => exact (hp.symm.eq_nil).symm
  | cons a t ih =>
      cases l₂ with
      | nil => simp at hp
      | cons b t₂ =>
          by_cases hab : a = b
          · subst hab
            have ht := ih hp.cons_inv hs₁.of_cons hs₂.of_cons
              (fun x hx y hy => hanti x (List.mem_cons_of_mem _ hx)
                y (List.mem_cons_of_mem _ hy))
            rw [ht]
          · have ha2 : a ∈ t₂ := by
              rcases List.mem_cons.mp (hp.subset (List.mem_cons_self a t)) with h | h
              · exact absurd h hab
              · exact h
            have hb1 : b ∈ t := by
              rcases List.mem_cons.mp (hp.symm.subset (List.mem_cons_self b t₂)) with h | h
              · exact absurd h.symm hab
              · exact h
            have hrab : r a b := List.rel_of_sorted_cons hs₁ b hb1
            have hrba : r b a := List.rel_of_sorted_cons hs₂ a ha2
            exact absurd (hanti a (List.mem_cons_self a t)
              b (List.mem_cons_of_mem _ hb1) hrab hrba) hab

/-- Equal priority keys force equal identifying pairs. -/
theorem pairOf_eq_of_priorityKey_eq {a b : RawMatch}
    (h : priorityKey a = priorityKey b) : pairOf a = pairOf b := by
  unfold priorityKey at h
  simp only [toLex_inj, Prod.mk.injEq] at h
  exact Prod.ext h.2.2.1 h.2.2.2

/-- The conflict predicate is symmetric. -/
theorem conflict_comm {a b : RawMatch} : conflict a b ↔ conflict b a := by
  unfold conflict
  rw [Finset.inter_comm]

/-- Absence of conflict is a symmetric relation. -/
theorem notConflict_symm : Symmetric (fun a b : RawMatch => ¬ conflict a b) :=
  fun _ _ hab hc => hab (conflict_comm.mp hc)

/-- Sorting the merged worker output by the priority key does not depend on
the completion order of the workers, as long as no two raw matches carry the
same identifying pair. -/
theorem insertionSort_priority_perm_invariant {l₁ l₂ : List RawMatch}
    (hp : l₁.Perm l₂)
    (hinj : ∀ a ∈ l₁, ∀ b ∈ l₁, pairOf a = pairOf b → a = b) :
    List.insertionSort PriorityLe l₁ = List.insertionSort PriorityLe l₂ := by
  apply sorted_perm_eq_of_antisymm
  · exact (List.perm_insertionSort PriorityLe l₁).trans
      (hp.trans (List.perm_insertionSort PriorityLe l₂).symm)
  · exact List.sorted_insertionSort PriorityLe l₁
  · exact List.sorted_insertionSort PriorityLe l₂
  · intro a ha b hb hab hba
    have ha' : a ∈ l₁ := (List.perm_insertionSort PriorityLe l₁).subset ha
    have hb' : b ∈ l₁ := (List.perm_insertionSort PriorityLe l₁).subset hb
    exact hinj a ha' b hb' (pairOf_eq_of_priorityKey_eq (le_antisymm hab hba))

/-- The greedy admission walk preserves pairwise non-conflict of the
accumulator and delivers a pairwise non-conflicting admitted list. -/
theorem greedyAdmit_pairwise :
    ∀ (l acc : List RawMatch), acc.Pairwise (fun a b => ¬ conflict a b) →
      (greedyAdmit acc l).Pairwise (fun a b => ¬ conflict a b) := by
  intro l
  induction l with
  | nil =>
      intro acc hacc
      unfold greedyAdmit
      exact List.pairwise_reverse.mpr (hacc.imp fun h hc => h (conflict_comm.mp hc))
  | cons m rest ih =>
      intro acc hacc
      unfold greedyAdmit
      by_cases h : ∃ a ∈ acc, conflict a m
      · rw [if_pos h]
        exact ih acc hacc
      · rw [if_neg h]
        refine ih (m :: acc) (List.pairwise_cons.mpr ⟨?_, hacc⟩)
        intro a ha hc
        exact h ⟨a, ha, conflict_comm.mp hc⟩

/-- The resolved set is pairwise non-conflicting. -/
theorem overlapResolve_pairwise (raw : List RawMatch) :
    (overlapResolve raw).Pairwise (fun a b => ¬ conflict a b) := by
  have h := greedyAdmit_pairwise (List.insertionSort PriorityLe raw) [] List.Pairwise.nil
  have hperm := List.perm_insertionSort OutputLe
    (greedyAdmit [] (List.insertionSort PriorityLe raw))
  exact (hperm.pairwise_iff (fun hab => notConflict_symm hab)).mpr h

/-- Two resolved matches with intersecting atom sets are the same match. -/
theorem overlapResolve_no_conflict {raw : List RawMatch} {a b : RawMatch}
    (ha : a ∈ overlapResolve raw) (hb : b ∈ overlapResolve raw)
    (hc : conflict a b) : a = b := by
  by_contra hne
  exact (overlapResolve_pairwise raw).forall notConflict_symm ha hb hne hc

/-- Every match decorated from position `j` carries the pattern position `i`
and an occurrence position at least `j`. -/
theorem mem_decorate {n : String} {i rank : ℕ} :
    ∀ {j : ℕ} {l : List (Finset ℕ)} {m : RawMatch},
      m ∈ decorate n i rank j l → m.patternIdx = i ∧ j ≤ m.matchIdx := by
  intro j l
  induction l generalizing j with
  | nil => intro m h; simp [decorate] at h
  | cons s rest ih =>
      intro m h
      rcases List.mem_cons.mp h with h | h
      · subst h; exact ⟨rfl, le_refl j⟩
      · obtain ⟨h1, h2⟩ := ih h
        exact ⟨h1, le_trans (Nat.le_succ j) h2⟩

/-- The identifying pairs of one decorated block are distinct. -/
theorem decorate_pairs_nodup (n : String) (i rank : ℕ) :
    ∀ (j : ℕ) (l : List (Finset ℕ)), ((decorate n i rank j l).map pairOf).Nodup := by
  intro j l
  induction l generalizing j with
  | nil => simp [decorate]
  | cons s rest ih =>
      simp only [decorate, List.map_cons, List.nodup_cons]
      refine ⟨?_, ih (j + 1)⟩
      intro hmem
      obtain ⟨m, hm, hpair⟩ := List.mem_map.mp hmem
      have := (mem_decorate hm).2
      have : j + 1 ≤ j := by
        have hj : m.matchIdx = j := congrArg Prod.snd hpair
        omega
      omega

/-- The identifying pairs of one collected pattern block are distinct, and
all carry the block's catalog position. -/
theorem collectPattern_pairs_nodup (prim : String → EvalOutcome) (i : ℕ)
    (p : PatternDefinition) : ((collectPattern prim i p).map pairOf).Nodup := by
  unfold collectPattern
  cases evalPattern prim p with
  | none => simp
  | some ts => exact decorate_pairs_nodup p.name i p.rank 0 (tuplesToSets ts)

/-- Every match of a collected pattern block carries the block's catalog
position. -/
theorem mem_collectPattern_patternIdx {prim : String → EvalOutcome} {i : ℕ}
    {p : PatternDefinition} {m : RawMatch} (h : m ∈ collectPattern prim i p) :
    m.patternIdx = i := by
  unfold collectPattern at h
  cases hev : evalPattern prim p with
  | none => rw [hev] at h; simp at h
  | some ts => rw [hev] at h; exact (mem_decorate h).1

/-- Every match collected from catalog position `i` onward carries a pattern
position at least `i`. -/
theorem mem_collectBlocksFrom_ge (prim : String → EvalOutcome) :
    ∀ (ps : List PatternDefinition) (i : ℕ) (m : RawMatch),
      m ∈ (collectBlocksFrom prim i ps).flatten → i ≤ m.patternIdx := by
  intro ps
  induction ps with
  | nil => intro i m h; simp [collectBlocksFrom] at h
  | cons p rest ih =>
      intro i m h
      simp only [collectBlocksFrom, List.flatten_cons, List.mem_append] at h
      rcases h with h | h
      · exact le_of_eq (mem_collectPattern_patternIdx h).symm
      · exact le_trans (Nat.le_succ i) (ih (i + 1) m h)

/-- The identifying pairs of the whole collected output are distinct. -/
theorem collectBlocksFrom_pairs_nodup (prim : String → EvalOutcome) :
    ∀ (ps : List PatternDefinition) (i : ℕ),
      (((collectBlocksFrom prim i ps).flatten).map pairOf).Nodup := by
  intro ps
  induction ps with
  | nil => intro i; simp [collectBlocksFrom]
  | cons p rest ih =>
      intro i
      simp only [collectBlocksFrom, List.flatten_cons, List.map_append]
      refine List.nodup_append.mpr ⟨collectPattern_pairs_nodup prim i p, ih (i + 1), ?_⟩
      intro pr hpr₁ hpr₂
      obtain ⟨m₁, hm₁, hpr₁'⟩ := List.mem_map.mp hpr₁
      obtain ⟨m₂, hm₂, hpr₂'⟩ := List.mem_map.mp hpr₂
      have h₁ : m₁.patternIdx = i := mem_collectPattern_patternIdx hm₁
      have h₂ : i + 1 ≤ m₂.patternIdx := mem_collectBlocksFrom_ge prim rest (i + 1) m₂ hm₂
      have hfst : m₁.patternIdx = m₂.patternIdx := by
        have := hpr₁'.trans hpr₂'.symm
        exact congrArg Prod.fst this
      omega

/-- The merged resolver input is scheduling independent: the ordered
group-name list computed from the per-pattern blocks merged in any
completion order equals the one computed in catalog order. -/
theorem analyzeNamesFromBlocks_perm (prim : String → EvalOutcome)
    (catalog : List PatternDefinition) (blocks : List (List RawMatch))
    (hsched : blocks.Perm (collectBlocks prim catalog)) :
    analyzeNamesFromBlocks blocks =
      analyzeNamesFromBlocks (collectBlocks prim catalog) := by
  have hflat : blocks.flatten.Perm (collectBlocks prim catalog).flatten :=
    hsched.flatten
  have hnodup : (((collectBlocks prim catalog).flatten).map pairOf).Nodup :=
    collectBlocksFrom_pairs_nodup prim catalog 0
  have hinj : ∀ a ∈ blocks.flatten, ∀ b ∈ blocks.flatten,
      pairOf a = pairOf b → a = b := fun a ha b hb h =>
    List.inj_on_of_nodup_map hnodup (hflat.subset ha) (hflat.subset hb) h
  unfold analyzeNamesFromBlocks resolvedNames overlapResolve
  rw [insertionSort_priority_perm_invariant hflat hinj]

/-- C1: For a fixed input Molecule and a fixed catalog snapshot, every two
invocations of `AnalyzeFunctionalGroups` produce identical ordered
group-name lists (the `matches` sequence of the Report), independent of the
order in which per-pattern evaluations complete: the Report assembled from
the per-pattern worker blocks merged in any completion order (any
permutation of the catalog-order blocks) is the Report the entry point
returns. -/
theorem analyze_matches_scheduling_independent (catalog : List PatternDefinition)
    (mol : Molecule) (prim : Molecule → String → EvalOutcome)
    (renderCombined : Option String) (renderInd : String → Option String)
    (blocks : List (List RawMatch))
    (hsched : blocks.Perm (collectBlocks (prim mol) catalog)) :
    analyzeFunctionalGroups catalog (some mol) prim renderCombined renderInd =
      .ok (assembleReport catalog (analyzeNamesFromBlocks blocks)
        renderCombined renderInd) := by
  unfold analyzeFunctionalGroups
  rw [analyzeNamesFromBlocks_perm (prim mol) catalog blocks hsched]

/-- Witness for C1: on the acetic-acid fixture the reversed worker
completion order yields the very Report of the entry point. -/
theorem analyze_matches_scheduling_independent_witness :
    wBlocksReversed.Perm (collectBlocks (wPrim wMol) wCatalog) ∧
    analyzeFunctionalGroups wCatalog (some wMol) wPrim (some "img") (fun _ => none) =
      .ok (assembleReport wCatalog (analyzeNamesFromBlocks wBlocksReversed)
        (some "img") (fun _ => none)) :=
  ⟨by decide, analyze_matches_scheduling_independent wCatalog wMol wPrim
    (some "img") (fun _ => none) wBlocksReversed (by decide)⟩

/-- C2: For every pair of raw matches where one atom-index set is fully
contained in the other and the containing match outranks (or is outranked
by) the contained one, overlap resolution never admits both: any two
resolved matches whose atom sets are in a (nonempty) containment relation
are the same match; and on exactly the pair, in either containment
direction — the lower-ranked generic match contained in the specific match
(the acetic-acid example) or the lower-ranked generic match containing the
specific match (the claim's general clause) — the resolver admits the
specific match alone, whichever merge order the pair arrives in. -/
theorem resolve_admits_specific_suppresses_generic :
    (∀ (raw : List RawMatch) (A B : RawMatch), A ∈ overlapResolve raw →
        B ∈ overlapResolve raw → A.atoms ⊆ B.atoms → A.atoms.Nonempty → A = B)
    ∧ (∀ A B : RawMatch, A.atoms ⊆ B.atoms → A.atoms.Nonempty → A.rank < B.rank →
        overlapResolve [A, B] = [B] ∧ overlapResolve [B, A] = [B])
    ∧ (∀ A B : RawMatch, A.atoms ⊆ B.atoms → A.atoms.Nonempty → B.rank < A.rank →
        overlapResolve [A, B] = [A] ∧ overlapResolve [B, A] = [A]) := by
  refine ⟨?_, ?_, ?_⟩
  · intro raw A B hA hB hsub hne
    apply overlapResolve_no_conflict hA hB
    unfold conflict
    rwa [Finset.inter_eq_left.mpr hsub]
  · intro A B hsub hne hrank
    have hlt : priorityKey B < priorityKey A := by
      unfold priorityKey
      rw [Prod.Lex.lt_iff]
      left
      simp only
      omega
    have hPle : ¬ PriorityLe A B := by
      unfold PriorityLe
      exact not_le.mpr hlt
    have hPle' : PriorityLe B A := le_of_lt hlt
    have hconfBA : conflict B A := by
      unfold conflict
      rwa [Finset.inter_comm, Finset.inter_eq_left.mpr hsub]
    have hsort₁ : List.insertionSort PriorityLe [A, B] = [B, A] := by
      simp [List.insertionSort, List.orderedInsert, hPle]
    have hsort₂ : List.insertionSort PriorityLe [B, A] = [B, A] := by
      simp [List.insertionSort, List.orderedInsert, hPle']
    have hgreedy : greedyAdmit [] [B, A] = [B] := by
      simp [greedyAdmit, hconfBA]
    have hout : List.insertionSort OutputLe [B] = [B] := by
      simp [List.insertionSort, List.orderedInsert]
    constructor
    · unfold overlapResolve
      rw [hsort₁, hgreedy, hout]
    · unfold overlapResolve
      rw [hsort₂, hgreedy, hout]
  · intro A B hsub hne hrank
    have hlt : priorityKey A < priorityKey B := by
      unfold priorityKey
      rw [Prod.Lex.lt_iff]
      left
      simp only
      omega
    have hPle : PriorityLe A B := le_of_lt hlt
    have hPle' : ¬ PriorityLe B A := by
      unfold PriorityLe
      exact not_le.mpr hlt
    have hconfAB : conflict A B := by
      unfold conflict
      rwa [Finset.inter_eq_left.mpr hsub]
    have hsort₁ : List.insertionSort PriorityLe [A, B] = [A, B] := by
      simp [List.insertionSort, List.orderedInsert, hPle]
    have hsort₂ : List.insertionSort PriorityLe [B, A] = [A, B] := by
      simp [List.insertionSort, List.orderedInsert, hPle']
    have hgreedy : greedyAdmit [] [A, B] = [A] := by
      simp [greedyAdmit, hconfAB]
    have hout : List.insertionSort OutputLe [A] = [A] := by
      simp [List.insertionSort, List.orderedInsert]
    constructor
    · unfold overlapResolve
      rw [hsort₁, hgreedy, hout]
    · unfold overlapResolve
      rw [hsort₂, hgreedy, hout]

/-- Witness for C2: on acetic acid the generic 2-atom carbonyl match is
contained in the 4-atom carboxylic-acid match of higher rank, and the
resolver admits only the carboxylic-acid match, in either arrival order. -/
theorem resolve_admits_specific_suppresses_generic_witness :
    (wCarbonylMatch.atoms ⊆ wAcidMatch.atoms ∧ wCarbonylMatch.atoms.Nonempty ∧
      wCarbonylMatch.rank < wAcidMatch.rank) ∧
    overlapResolve [wCarbonylMatch, wAcidMatch] = [wAcidMatch] ∧
    overlapResolve [wAcidMatch, wCarbonylMatch] = [wAcidMatch] :=
  ⟨⟨by decide, by decide, by decide⟩,
    (resolve_admits_specific_suppresses_generic.2.1 wCarbonylMatch wAcidMatch
      (by decide) (by decide) (by decide)).1,
    (resolve_admits_specific_suppresses_generic.2.1 wCarbonylMatch wAcidMatch
      (by decide) (by decide) (by decide)).2⟩

/-- C3: Every successful `AnalyzeFunctionalGroups` result is a Report with
exactly four parts: the ordered sequence of resolved group names
(`matches`), a mapping from group name to catalog metadata (`groups_data`),
the combined highlighted-structure image (`image`), and a mapping from
group name to that group's individual highlighted-structure image
(`individual_images`). -/
theorem report_has_four_parts (catalog : List PatternDefinition) (mol : Molecule)
    (prim : Molecule → String → EvalOutcome) (renderCombined : Option String)
    (renderInd : String → Option String) :
    ∃ r : Report,
      analyzeFunctionalGroups catalog (some mol) prim renderCombined renderInd
        = .ok r ∧
      r.«matches» = analyzeNamesFromBlocks (collectBlocks (prim mol) catalog) ∧
      (∀ n p, (n, p) ∈ r.groups_data → n ∈ r.«matches» ∧ p ∈ catalog ∧ p.name = n) ∧
      r.image = renderCombined ∧
      (∀ n img, (n, img) ∈ r.individual_images →
        n ∈ r.«matches» ∧ renderInd n = some img) := by
  refine ⟨_, rfl, rfl, ?_, rfl, ?_⟩
  · intro n p hmem
    simp only [assembleReport, List.mem_filterMap, Option.map_eq_some'] at hmem
    obtain ⟨a, ha, q, hq, heq⟩ := hmem
    obtain ⟨h1, h2⟩ := Prod.mk.injEq .. ▸ heq
    subst h1
    subst h2
    refine ⟨ha, List.mem_of_find?_eq_some hq, ?_⟩
    have h3 := List.find?_some hq
    simpa using h3
  · intro n img hmem
    simp only [assembleReport, List.mem_filterMap, Option.map_eq_some'] at hmem
    obtain ⟨a, ha, img', himg, heq⟩ := hmem
    obtain ⟨h1, h2⟩ := Prod.mk.injEq .. ▸ heq
    subst h1
    subst h2
    exact ⟨ha, himg⟩

/-- Witness for C3: the four-part Report characterization at the
acetic-acid fixture. -/
theorem report_has_four_parts_witness :
    ∃ r : Report,
      analyzeFunctionalGroups wCatalog (some wMol) wPrim (some "img") wRenderInd
        = .ok r ∧
      r.«matches» = analyzeNamesFromBlocks (collectBlocks (wPrim wMol) wCatalog) ∧
      (∀ n p, (n, p) ∈ r.groups_data → n ∈ r.«matches» ∧ p ∈ wCatalog ∧ p.name = n) ∧
      r.image = some "img" ∧
      (∀ n img, (n, img) ∈ r.individual_images →
        n ∈ r.«matches» ∧ wRenderInd n = some img) :=
  report_has_four_parts wCatalog wMol wPrim (some "img") wRenderInd

/-- C4: An analysis request fails (surfaces an error to the caller) exactly
when the input molecule itself could not be parsed; with a parsed molecule
every request — whatever per-pattern syntax or timeout failures and
rendering failures the collaborators produce — yields a best-effort
Report. -/
theorem analysis_fails_only_on_parse_failure (catalog : List PatternDefinition)
    (parseResult : Option Molecule) (prim : Molecule → String → EvalOutcome)
    (renderCombined : Option String) (renderInd : String → Option String) :
    ((∃ e, analyzeFunctionalGroups catalog parseResult prim renderCombined renderInd
        = .error e) ↔ parseResult = none)
    ∧ (∀ mol, parseResult = some mol →
        analyzeFunctionalGroups catalog parseResult prim renderCombined renderInd
          = .ok (assembleReport catalog
              (analyzeNamesFromBlocks (collectBlocks (prim mol) catalog))
              renderCombined renderInd)) := by
  constructor
  · cases parseResult with
    | none => exact ⟨fun _ => rfl, fun _ => ⟨.parseError, rfl⟩⟩
    | some mol =>
        constructor
        · intro ⟨e, he⟩
          simp [analyzeFunctionalGroups] at he
        · intro h
          simp at h
  · intro mol hmol
    subst hmol
    rfl

/-- Witness for C4: on the acetic-acid fixture, with a primitive that
produces matches and an individual-image renderer that fails for every
group but one, the analysis still returns the assembled Report. -/
theorem analysis_fails_only_on_parse_failure_witness :
    analyzeFunctionalGroups wCatalog (some wMol) wPrim none wRenderInd
      = .ok (assembleReport wCatalog
          (analyzeNamesFromBlocks (collectBlocks (wPrim wMol) wCatalog))
          none wRenderInd) :=
  (analysis_fails_only_on_parse_failure wCatalog (some wMol) wPrim none
    wRenderInd).2 wMol rfl

/-- A primitive that finds no tuple for any pattern collects no raw match
for any catalog tail. -/
theorem collectBlocksFrom_flatten_nil {prim : String → EvalOutcome}
    (h : ∀ s, prim s = .ok []) :
    ∀ (ps : List PatternDefinition) (i : ℕ),
      (collectBlocksFrom prim i ps).flatten = [] := by
  intro ps
  induction ps with
  | nil => intro i; simp [collectBlocksFrom]
  | cons p rest ih =>
      intro i
      simp [collectBlocksFrom, collectPattern, evalPattern, h, tuplesToSets,
        decorate, ih (i + 1)]

/-- C5: A molecule matching zero catalog patterns yields a Report with an
empty ordered group list (and whatever combined image the renderer
delivered) rather than an error, and the result view renders the zero-count
summary `Found 0 functional groups in this molecule.` and no group
cards. -/
theorem empty_match_empty_report :
    (∀ (catalog : List PatternDefinition) (mol : Molecule)
        (prim : Molecule → String → EvalOutcome) (renderCombined : Option String)
        (renderInd : String → Option String),
      (∀ s, prim mol s = .ok []) →
      analyzeFunctionalGroups catalog (some mol) prim renderCombined renderInd
        = .ok { «matches» := [], groups_data := [], image := renderCombined,
                individual_images := [] })
    ∧ summaryText 0 = "Found 0 functional groups in this molecule."
    ∧ (∀ r : JsResult, r.«matches» = some [] →
        functionalGroupResults (some r) =
          .ok (.view { summary := summaryText 0, image := jsTruthyStr r.image,
                       cards := [] })) := by
  refine ⟨?_, by decide, ?_⟩
  · intro catalog mol prim renderCombined renderInd h
    have hnil : (collectBlocks (prim mol) catalog).flatten = [] :=
      collectBlocksFrom_flatten_nil h catalog 0
    simp [analyzeFunctionalGroups, assembleReport, analyzeNamesFromBlocks,
      resolvedNames, overlapResolve, hnil, greedyAdmit]
  · intro r h
    simp [functionalGroupResults, h]

/-- Witness for C5: a primitive that matches nothing yields the empty
Report, and the result view for an empty `matches` list shows the
zero-count summary and no cards. -/
theorem empty_match_empty_report_witness :
    (analyzeFunctionalGroups wCatalog (some wMol) (fun _ _ => .ok []) none wRenderInd
        = .ok { «matches» := [], groups_data := [], image := none,
                individual_images := [] })
    ∧ functionalGroupResults
        (some { «matches» := some [], groups_data := none, image := none,
                individual_images := none }) =
          .ok (.view { summary := summaryText 0, image := none, cards := [] }) :=
  ⟨empty_match_empty_report.1 wCatalog wMol (fun _ _ => .ok []) none wRenderInd
      (fun _ => rfl),
    empty_match_empty_report.2.2
      { «matches» := some [], groups_data := none, image := none,
        individual_images := none } rfl⟩

/-- C6: A rendering failure for the combined image or for any individual
group image is non-fatal — the affected image is omitted from the Report
while the textual/metadata portion is unchanged: the `matches` and
`groups_data` parts do not depend on the render outcomes, the combined
image slot is exactly the renderer's outcome, a failed individual image is
absent from the Report, and a group card without its individual image shows
no image block but identical textual fields. -/
theorem render_failure_nonfatal :
    (∀ (catalog : List PatternDefinition) (mol : Molecule)
        (prim : Molecule → String → EvalOutcome)
        (rc rc' : Option String) (ri ri' : String → Option String),
      ∃ r r' : Report,
        analyzeFunctionalGroups catalog (some mol) prim rc ri = .ok r ∧
        analyzeFunctionalGroups catalog (some mol) prim rc' ri' = .ok r' ∧
        r.«matches» = r'.«matches» ∧ r.groups_data = r'.groups_data ∧
        r.image = rc ∧
        (∀ n, ri n = none → ∀ img, (n, img) ∉ r.individual_images))
    ∧ (∀ (g : JsGroup) (img : Option String),
        (functionalGroupCard g none).image = none ∧
        (functionalGroupCard g img).title = (functionalGroupCard g none).title ∧
        (functionalGroupCard g img).description
          = (functionalGroupCard g none).description ∧
        (functionalGroupCard g img).categories
          = (functionalGroupCard g none).categories ∧
        (functionalGroupCard g img).subcategories
          = (functionalGroupCard g none).subcategories ∧
        (functionalGroupCard g img).reactivity
          = (functionalGroupCard g none).reactivity ∧
        (functionalGroupCard g img).chebiLink
          = (functionalGroupCard g none).chebiLink) := by
  constructor
  · intro catalog mol prim rc rc' ri ri'
    refine ⟨_, _, rfl, rfl, rfl, rfl, rfl, ?_⟩
    intro n hn img hmem
    simp only [assembleReport, List.mem_filterMap, Option.map_eq_some'] at hmem
    obtain ⟨a, _, img', himg, heq⟩ := hmem
    obtain ⟨h1, _⟩ := Prod.mk.injEq .. ▸ heq
    subst h1
    rw [hn] at himg
    exact Option.noConfusion himg
  · intro g img
    exact ⟨rfl, rfl, rfl, rfl, rfl, rfl, rfl⟩

/-- Witness for C6: at the acetic-acid fixture, reports rendered with a
succeeding and with a failing renderer agree on the textual parts. -/
theorem render_failure_nonfatal_witness :
    ∃ r r' : Report,
      analyzeFunctionalGroups wCatalog (some wMol) wPrim none (fun _ => none) = .ok r ∧
      analyzeFunctionalGroups wCatalog (some wMol) wPrim (some "img") wRenderInd = .ok r' ∧
      r.«matches» = r'.«matches» ∧ r.groups_data = r'.groups_data ∧
      r.image = none ∧
      (∀ n, (fun _ : String => (none : Option String)) n = none →
        ∀ img, (n, img) ∉ r.individual_images) :=
  render_failure_nonfatal.1 wCatalog wMol wPrim none (some "img")
    (fun _ => none) wRenderInd

/-- C7: Every analysis request carries its input in exactly one of three
formats — SMILES notation string, SMARTS pattern string, or MOL file
content — the `<select>` of `MoleculeInput.js` offers exactly these three
option values, the molecule-parsing collaborator takes exactly this
three-valued format parameter and fails with a parse error precisely on
malformed input, and the submitted payload's format is the selected one. -/
theorem input_format_three_valued :
    (∀ t : InputType, t = .smiles ∨ t = .smarts ∨ t = .mol_file)
    ∧ (∀ s : String, (parseInputTypeOption s).isSome ↔ s ∈ selectOptions)
    ∧ (∀ (wf : String → InputType → Option Molecule) (txt : String) (fmt : InputType),
        (∃ e, parseMolecule wf txt fmt = .error e) ↔ wf txt fmt = none)
    ∧ (∀ (v : String) (t : InputType) (p : AnalyzePayload),
        handleAnalyze v t = some p → p.type = t) := by
  refine ⟨?_, ?_, ?_, ?_⟩
  · intro t
    cases t with
    | smiles => exact Or.inl rfl
    | smarts => exact Or.inr (Or.inl rfl)
    | mol_file => exact Or.inr (Or.inr rfl)
  · intro s
    simp only [parseInputTypeOption, selectOptions, List.mem_cons,
      List.mem_singleton, List.not_mem_nil, or_false]
    split_ifs with h1 h2 h3 <;> simp_all
  · intro wf txt fmt
    unfold parseMolecule
    cases wf txt fmt with
    | none => exact ⟨fun _ => rfl, fun _ => ⟨.parseError, rfl⟩⟩
    | some m =>
        constructor
        · intro ⟨e, he⟩
          exact Except.noConfusion he
        · intro h
          exact Option.noConfusion h
  · intro v t p h
    unfold handleAnalyze at h
    by_cases hv : jsTrim v = ""
    · rw [if_pos hv] at h
      exact Option.noConfusion h
    · rw [if_neg hv] at h
      cases Option.some.injEq .. ▸ h
      rfl

/-- Witness for C7: the SMILES format submitted for ethanol survives into
the payload, and `parseMolecule` on a malformed input fails. -/
theorem input_format_three_valued_witness :
    (handleAnalyze "CCO" InputType.smiles = some ⟨"CCO", InputType.smiles⟩ ∧
      (AnalyzePayload.mk "CCO" InputType.smiles).type = InputType.smiles) ∧
    ((∃ e, parseMolecule (fun _ _ => none) "not-a-molecule" InputType.smiles
        = .error e) ↔ (fun _ _ => (none : Option Molecule)) "not-a-molecule"
          InputType.smiles = none) :=
  ⟨⟨by decide, input_format_three_valued.2.2.2 "CCO" InputType.smiles
      ⟨"CCO", InputType.smiles⟩ (by decide)⟩,
    input_format_three_valued.2.2.1 (fun _ _ => none) "not-a-molecule"
      InputType.smiles⟩

/-- C8: Whenever `analyzeMolecule` in `src/services/api.js` fails — a
non-OK response (even one whose JSON body carries a specific error
message), a failed body parse, or a failed fetch — the caller receives
exactly the error `Failed to analyze molecule. Please try again.`; the
server-supplied detail thrown inside the `try` block is always caught and
replaced. -/
theorem analyzeMolecule_generic_error_only :
    (∀ fetchResult : Except String ServerResponse,
      (∃ body, analyzeMolecule fetchResult = .ok body) ∨
        analyzeMolecule fetchResult =
          .error "Failed to analyze molecule. Please try again.")
    ∧ analyzeMolecule (.ok ⟨false, .ok ⟨some "Invalid SMILES string", ""⟩⟩) =
      .error "Failed to analyze molecule. Please try again." := by
  constructor
  · intro fetchResult
    cases fetchResult with
    | error e => exact Or.inr rfl
    | ok resp =>
        obtain ⟨ok, jr⟩ := resp
        cases jr with
        | error e => exact Or.inr rfl
        | ok body =>
            cases ok with
            | true => exact Or.inl ⟨body, rfl⟩
            | false => exact Or.inr rfl
  · rfl

/-- Counterexample for C9: rendering a Report does fail on incomplete data —
a result object whose `matches` list is non-empty but whose `groups_data`
field is absent makes `FunctionalGroupResults` evaluate
`groups_data[groupName]` on `undefined` and throw a TypeError. -/
theorem functionalGroupResults_throws_without_groups_data :
    functionalGroupResults
        (some ⟨some ["Carbonyl"], none, none, none⟩) =
      .error .typeError := by
  decide

/-- C9 (amended): Rendering never fails when the result object is null or
lacks a `matches` field — the `no results` fallback is rendered instead of
throwing — and whenever the `groups_data` field is present, every matched
group name absent from it gets its card rendered from the fallback object
containing only the name; only a result with a non-empty `matches` list
and no `groups_data` field at all throws. -/
theorem functionalGroupResults_fallbacks :
    (functionalGroupResults none = .ok .noResults)
    ∧ (∀ r : JsResult, r.«matches» = none →
        functionalGroupResults (some r) = .ok .noResults)
    ∧ (∀ (r : JsResult) (ms : List String) (gd : List (String × JsGroup))
        (n : String), r.«matches» = some ms → r.groups_data = some gd →
        n ∈ ms → jsLookup gd n = none →
        ∃ v : ResultsView, functionalGroupResults (some r) = .ok (.view v) ∧
          functionalGroupCard (fallbackGroup n)
              (match r.individual_images with
               | none => none
               | some ii => jsLookup ii n) ∈ v.cards) := by
  refine ⟨rfl, ?_, ?_⟩
  · intro r h
    simp [functionalGroupResults, h]
  · intro r ms gd n h1 h2 hn hlook
    have hne : ms.isEmpty = false := by
      cases ms with
      | nil => simp at hn
      | cons a t => rfl
    refine ⟨{ summary := summaryText ms.length, image := jsTruthyStr r.image,
              cards := ms.map fun k =>
                functionalGroupCard ((jsLookup gd k).getD (fallbackGroup k))
                  (match r.individual_images with
                   | none => none
                   | some ii => jsLookup ii k) }, ?_, ?_⟩
    · simp [functionalGroupResults, h1, h2, hne]
    · simp only [List.mem_map]
      exact ⟨n, hn, by rw [hlook]; rfl⟩

/-- Witness for C9 (amended): a matched name absent from a present
`groups_data` object renders from the `{ name }` fallback card. -/
theorem functionalGroupResults_fallbacks_witness :
    ∃ v : ResultsView,
      functionalGroupResults
          (some ⟨some ["Hydroxyl"], some [], none, none⟩) = .ok (.view v) ∧
      functionalGroupCard (fallbackGroup "Hydroxyl") none ∈ v.cards :=
  functionalGroupResults_fallbacks.2.2
    ⟨some ["Hydroxyl"], some [], none, none⟩ ["Hydroxyl"] [] "Hydroxyl"
    rfl rfl (by decide) (by decide)

/-- C10: `MoleculeInput` invokes its `onAnalyze` callback only with
non-empty input: for every input whose trimmed form is empty the analyze
action is rejected (the button is disabled and `handleAnalyze` returns
without calling `onAnalyze`), and every accepted payload carries the typed
text with leading and trailing whitespace removed. -/
theorem handleAnalyze_trims_and_rejects_blank :
    (∀ (v : String) (t : InputType), jsTrim v = "" →
      handleAnalyze v t = none ∧ analyzeButtonDisabled v = true)
    ∧ (∀ (v : String) (t : InputType) (p : AnalyzePayload),
        handleAnalyze v t = some p →
        p.input = jsTrim v ∧ p.input ≠ "" ∧ p.type = t) := by
  constructor
  · intro v t h
    constructor
    · simp [handleAnalyze, h]
    · simp [analyzeButtonDisabled, h]
  · intro v t p h
    unfold handleAnalyze at h
    by_cases hv : jsTrim v = ""
    · rw [if_pos hv] at h
      exact Option.noConfusion h
    · rw [if_neg hv] at h
      cases Option.some.injEq .. ▸ h
      exact ⟨rfl, hv, rfl⟩

/-- Witness for C10: blank input is rejected with a disabled button, and
`  CCO  ` is submitted as its trimmed form `CCO`. -/
theorem handleAnalyze_trims_and_rejects_blank_witness :
    (jsTrim "   " = "" ∧ handleAnalyze "   " InputType.smiles = none ∧
      analyzeButtonDisabled "   " = true) ∧
    (handleAnalyze "  CCO  " InputType.smiles
        = some ⟨"CCO", InputType.smiles⟩ ∧
      (AnalyzePayload.mk "CCO" InputType.smiles).input = jsTrim "  CCO  " ∧
      (AnalyzePayload.mk "CCO" InputType.smiles).input ≠ "") :=
  ⟨⟨by decide,
      (handleAnalyze_trims_and_rejects_blank.1 "   " InputType.smiles (by decide)).1,
      (handleAnalyze_trims_and_rejects_blank.1 "   " InputType.smiles (by decide)).2⟩,
    by decide,
    (handleAnalyze_trims_and_rejects_blank.2 "  CCO  " InputType.smiles
      ⟨"CCO", InputType.smiles⟩ (by decide)).1,
    (handleAnalyze_trims_and_rejects_blank.2 "  CCO  " InputType.smiles
      ⟨"CCO", InputType.smiles⟩ (by decide)).2.1⟩
